import Mathlib

/-!
Verification of the serverless-env-local plugin (src/index.js).

The development shallowly embeds the plugin's data model and operations:

* `EnvironmentMap` — a JS object mapping variable names to values, modelled
  as an association list preserving iteration order.
* `Fs` — the local filesystem fragment the plugin touches, modelled as an
  association list from path strings to nodes (files with content, or
  directories with a permission mode).
* `Config` — the fields of `this.serverless` / `this.options` that the
  plugin reads (service path, custom directory, function configurations,
  CLI / config / provider stage and region, service name).

Each method of the `ServerlessEnvLocal` class is translated into a Lean
function over these types; exceptions become `Except`, and the
asynchronous fan-out of `afterDeploy` is linearised into a fold (each
pipeline writes to a distinct path, so the linearisation is observationally
faithful).
-/

/-- An environment map: variable name to value, in JS-object iteration
order.  Keys of a JS object are unique; we carry uniqueness as a hypothesis
where a theorem needs it. -/
abbrev EnvironmentMap := List (String × String)

/-- A node of the modelled filesystem: a regular file with its text
content, or a directory with its permission mode (`fs.mkdirSync(path, mode)`
records the mode). -/
inductive FsNode : Type
  | file (content : String)
  | dir (mode : Nat)
deriving DecidableEq, Repr

/-- The filesystem fragment: paths to nodes. -/
abbrev Fs := List (String × FsNode)

/-- Equality of `Except` results is decidable; used to evaluate the model
at concrete inputs. -/
instance exceptDecEq {ε α : Type} [DecidableEq ε] [DecidableEq α] :
    DecidableEq (Except ε α) := fun a b =>
  match a, b with
  | Except.ok x, Except.ok y =>
    if h : x = y then isTrue (by rw [h])
    else isFalse (fun he => h (by injection he))
  | Except.ok _, Except.error _ => isFalse (fun he => Except.noConfusion he)
  | Except.error _, Except.ok _ => isFalse (fun he => Except.noConfusion he)
  | Except.error e1, Except.error e2 =>
    if h : e1 = e2 then isTrue (by rw [h])
    else isFalse (fun he => h (by injection he))

/-- Errors the plugin's methods can raise.  `typeError` is the JS
`TypeError` from reading a property of `undefined`
(`functions[functionName].custom` when the function is not declared);
`notADirectory` is the explicit `Expected ... to be a directory` throw;
`ioError` is any `fs` failure (e.g. `mkdirSync` with a missing parent). -/
inductive CfError : Type
  | typeError
  | notADirectory
  | ioError
deriving DecidableEq, Repr

/-- Remove every binding of key `k` from an association list. -/
def eraseKey {α : Type} (k : String) : List (String × α) → List (String × α)
  | [] => []
  | e :: rest => if e.1 = k then eraseKey k rest else e :: eraseKey k rest

/-- Overwrite-or-insert into an association list (JS object/property
assignment semantics: `process.env[key] = value`, and writing a file). -/
def setAssoc {α : Type} (l : List (String × α)) (k : String) (v : α) :
    List (String × α) :=
  (k, v) :: eraseKey k l

/-- `fs.existsSync(p)`. -/
def existsSync (fs : Fs) (p : String) : Bool :=
  (List.lookup p fs).isSome

/-- `fs.statSync(p).isDirectory()` (only called on existing paths). -/
def isDirectorySync (fs : Fs) (p : String) : Bool :=
  match List.lookup p fs with
  | some (FsNode.dir _) => true
  | _ => false

/-- The parent of a `/`-separated path (everything before the last
separator; empty when the path has no separator). -/
def parentPath (p : String) : String :=
  String.mk (((p.data.reverse.dropWhile (fun c => c ≠ '/')).drop 1).reverse)

/-- `fs.mkdirSync(p, 0o700)` as called at src/index.js:101: the call has no
`recursive` flag, so it creates exactly one directory, with mode `0o700`,
and fails (ENOENT / ENOTDIR / EEXIST) when the parent is missing, the
parent is not a directory, or the path already exists. -/
def mkdirSync (fs : Fs) (p : String) : Except CfError Fs :=
  match List.lookup p fs with
  | some _ => Except.error CfError.ioError
  | none =>
    match List.lookup (parentPath p) fs with
    | some (FsNode.dir _) => Except.ok (setAssoc fs p (FsNode.dir 0o700))
    | _ => Except.error CfError.ioError

/-- `fs.writeFile(p, data, cb)`: replaces the node at `p` wholesale. -/
def writeFile (fs : Fs) (p : String) (content : String) : Fs :=
  setAssoc fs p (FsNode.file content)

/-- Per-function configuration: `functions[name].custom['resource-output-file']`.
`none` covers both an absent `custom` object and an absent key (both are
`undefined`, hence falsy); `some ""` is the falsy empty string. -/
structure FunctionConfig : Type where
  resourceOutputFile : Option String
deriving DecidableEq, Repr

/-- The slice of `this.serverless` / `this.options` that the plugin reads.
Absent (`undefined`) CLI/config/provider strings are modelled as `""`,
which is exactly as falsy as `undefined` under the `if (x)` tests the
source uses. -/
structure Config : Type where
  servicePath : String
  customDir : Option String
  functions : List (String × FunctionConfig)
  serviceName : String
  optStage : String
  configStage : String
  providerStage : String
  optRegion : String
  configRegion : String
  providerRegion : String

/-- `getStage()` (src/index.js:140-150): CLI option, else project config,
else provider, else the literal `'dev'`; JS truthiness makes `""` lose. -/
def getStage (c : Config) : String :=
  if c.optStage ≠ "" then c.optStage
  else if c.configStage ≠ "" then c.configStage
  else if c.providerStage ≠ "" then c.providerStage
  else "dev"

/-- `getRegion()` (src/index.js:156-166): same chain, fallback
`'us-east-1'`. -/
def getRegion (c : Config) : String :=
  if c.optRegion ≠ "" then c.optRegion
  else if c.configRegion ≠ "" then c.configRegion
  else if c.providerRegion ≠ "" then c.providerRegion
  else "us-east-1"

/-- `getStackName()` (src/index.js:172-174). -/
def getStackName (c : Config) : String :=
  c.serviceName ++ "-" ++ getStage c

/-- Drop the first occurrence of `pat` from a character list:
`_.replace(s, pat, '')` with a plain-string pattern replaces only the
first occurrence. -/
def removeFirstSub (pat : List Char) : List Char → List Char
  | [] => []
  | c :: rest =>
    if pat.isPrefixOf (c :: rest) then List.drop pat.length (c :: rest)
    else c :: removeFirstSub pat rest

/-- `getEnvDirectory()` (src/index.js:74-79): custom directory if truthy,
else `.serverless-env-local`, joined to the service path with any
`/.webpack/service` suffix removed. -/
def getEnvDirectory (c : Config) : String :=
  let directory :=
    match c.customDir with
    | some d => if d = "" then ".serverless-env-local" else d
    | none => ".serverless-env-local"
  let basePath : String :=
    String.mk (removeFirstSub "/.webpack/service".data c.servicePath.data)
  basePath ++ "/" ++ directory

/-- The default env-file name `.<region>_<stage>_<functionName>`
(src/index.js:87). -/
def defaultEnvFileName (region stage functionName : String) : String :=
  "." ++ region ++ "_" ++ stage ++ "_" ++ functionName

/-- `getEnvFileName(functionName)` (src/index.js:81-88).  Reading
`functions[functionName].custom` throws a `TypeError` when the function is
not declared; `customName || default` returns the default whenever the
override is absent or the empty string (both falsy). -/
def getEnvFileName (c : Config) (functionName : String) :
    Except CfError String :=
  match List.lookup functionName c.functions with
  | none => Except.error CfError.typeError
  | some cfg =>
    let d := defaultEnvFileName (getRegion c) (getStage c) functionName
    match cfg.resourceOutputFile with
    | some o => Except.ok (if o = "" then d else o)
    | none => Except.ok d

/-- Escape a value for the file: `_.replace(item, /\n/g, "\\n")` turns
each literal newline into backslash-`n` (src/index.js:115). -/
def escapeChars : List Char → List Char
  | [] => []
  | c :: rest =>
    if c = '\n' then '\\' :: 'n' :: escapeChars rest
    else c :: escapeChars rest

/-- String wrapper for `escapeChars`. -/
def escapeValue (s : String) : String :=
  String.mk (escapeChars s.data)

/-- The serialized file content
(`_.reduce(resources, (properties, item, key) =>
properties + key + '=' + escaped + '\n', '')`, src/index.js:114-115). -/
def serializeEnv (env : EnvironmentMap) : String :=
  env.foldl (fun properties kv =>
    properties ++ kv.1 ++ "=" ++ escapeValue kv.2 ++ "\n") ""

/-- Recursive restatement of `serializeEnv`, convenient for induction:
the concatenation, in iteration order, of `key=escapedValue` + newline. -/
def serializeEnvR : EnvironmentMap → String
  | [] => ""
  | kv :: rest => kv.1 ++ "=" ++ escapeValue kv.2 ++ "\n" ++ serializeEnvR rest

/-- `createCFFile(functionName, resources)` (src/index.js:95-123), with
the filesystem threaded explicitly.  The returned state is the filesystem
after the call; on an error the state is exactly the input state (the
source throws before touching the filesystem, except that a successful
`mkdirSync` already persists). -/
def createCFFile (c : Config) (fs : Fs) (functionName : String)
    (resources : EnvironmentMap) : Except CfError Unit × Fs :=
  let path := getEnvDirectory c
  match getEnvFileName c functionName with
  | Except.error e => (Except.error e, fs)
  | Except.ok fileName =>
    match (if existsSync fs path then Except.ok fs else mkdirSync fs path) with
    | Except.error e => (Except.error e, fs)
    | Except.ok fs1 =>
      if ¬ isDirectorySync fs1 path then (Except.error CfError.notADirectory, fs1)
      else
        let fullFileName := path ++ "/" ++ fileName
        (Except.ok (), writeFile fs1 fullFileName (serializeEnv resources))

/-- Split a character list into lines at literal `'\n'` characters (the
final segment is always present, so content ending in a newline yields a
trailing empty line). -/
def splitLines : List Char → List (List Char)
  | [] => [[]]
  | c :: rest =>
    if c = '\n' then [] :: splitLines rest
    else
      match splitLines rest with
      | [] => [[c]]
      | l :: ls => (c :: l) :: ls

/-- Split a line at its first `'='`: `some (key, rest)` if one occurs. -/
def splitAtEq : List Char → Option (List Char × List Char)
  | [] => none
  | c :: rest =>
    if c = '=' then some ([], rest)
    else
      match splitAtEq rest with
      | none => none
      | some (k, v) => some (c :: k, v)

/-- Unescape a value read from the file: each two-character sequence
backslash-`n` becomes a literal newline, scanning left to right. -/
def unescapeChars : List Char → List Char
  | [] => []
  | [c] => [c]
  | c1 :: c2 :: rest =>
    if c1 = '\\' ∧ c2 = 'n' then '\n' :: unescapeChars rest
    else c1 :: unescapeChars (c2 :: rest)

/-- Parse one line into a `key=value` record; a line with no `'='`
(including the trailing empty line) yields no record. -/
def parseRecord (l : List Char) : Option (String × String) :=
  match splitAtEq l with
  | none => none
  | some (k, v) => some (String.mk k, String.mk (unescapeChars v))

/-- Modelled from the spec: the file parser (`node-properties-parser`'s
`readSync`, an external dependency not part of this repository) is
described as parsing line-oriented `key=value` records, unescaping the
two-character backslash-`n` sequence in values back to literal newlines,
and skipping lines with no `=`. -/
def parseProperties (content : String) : EnvironmentMap :=
  (splitLines content.data).filterMap parseRecord

/-- `getCFFileVars(functionName)` (src/index.js:125-134): empty map when
the file does not exist, otherwise the parsed file.  Reading a directory
is an `fs` error. -/
def getCFFileVars (c : Config) (fs : Fs) (functionName : String) :
    Except CfError EnvironmentMap :=
  match getEnvFileName c functionName with
  | Except.error e => Except.error e
  | Except.ok fileName =>
    let fullFileName := getEnvDirectory c ++ "/" ++ fileName
    match List.lookup fullFileName fs with
    | none => Except.ok []
    | some (FsNode.file content) => Except.ok (parseProperties content)
    | some (FsNode.dir _) => Except.error CfError.ioError

/-- Apply one environment map onto the process environment in iteration
order (`_.each(_.toPairs(envVars), ... process.env[key] = value)`,
src/index.js:67-70): each entry overwrites any existing variable of the
same name. -/
def injectVars (penv : List (String × String)) (vars : EnvironmentMap) :
    List (String × String) :=
  vars.foldl (fun acc kv => setAssoc acc kv.1 kv.2) penv

/-- `beforeLocalInvoke()` (src/index.js:61-72), with the process
environment threaded explicitly: resolve the file name (throws for an
undeclared function), read the stored map, and set every entry into the
process environment. -/
def beforeLocalInvoke (c : Config) (fs : Fs) (targetFunction : String)
    (penv : List (String × String)) :
    Except CfError (List (String × String)) :=
  match getEnvFileName c targetFunction with
  | Except.error e => Except.error e
  | Except.ok _ =>
    match getCFFileVars c fs targetFunction with
    | Except.error e => Except.error e
    | Except.ok envVars => Except.ok (injectVars penv envVars)

/-- A per-function capture failure: the remote fetch rejected (logged and
re-thrown, src/index.js:53-56), or the local write failed. -/
inductive CaptureError : Type
  | fetchFailed (msg : String)
  | writeFailed (e : CfError)
deriving DecidableEq, Repr

/-- The remote identifier `${stackName}-${functionName}` queried by
`lambda.getFunctionConfiguration` (src/index.js:49). -/
def remoteId (c : Config) (functionName : String) : String :=
  getStackName c ++ "-" ++ functionName

/-- One function's capture pipeline, then the remaining functions'
pipelines (`afterDeploy`'s `_.map` linearised; each pipeline writes to a
distinct path, so the order is immaterial).  Returns each pipeline's
outcome in declaration order together with the final filesystem. -/
def afterDeployAux (c : Config) (fetch : String → Except String EnvironmentMap) :
    List String → Fs → List (Except CaptureError Unit) × Fs
  | [], fs => ([], fs)
  | n :: rest, fs =>
    let step : Except CaptureError Unit × Fs :=
      match fetch (remoteId c n) with
      | Except.error e => (Except.error (CaptureError.fetchFailed e), fs)
      | Except.ok envVars =>
        let r := createCFFile c fs n envVars
        (r.1.mapError CaptureError.writeFailed, r.2)
    let rest' := afterDeployAux c fetch rest step.2
    (step.1 :: rest'.1, rest'.2)

/-- `afterDeploy()` (src/index.js:45-59): one pipeline per declared
function, in `_.keys(this.serverless.service.functions)` order. -/
def afterDeploy (c : Config) (fetch : String → Except String EnvironmentMap)
    (fs : Fs) : List (Except CaptureError Unit) × Fs :=
  afterDeployAux c fetch (c.functions.map Prod.fst) fs

/-- `Promise.all` over settled outcomes: fulfilled exactly when every
pipeline fulfilled, rejected with a pipeline's error otherwise. -/
def promiseAll : List (Except CaptureError Unit) → Except CaptureError Unit
  | [] => Except.ok ()
  | Except.ok () :: rest => promiseAll rest
  | Except.error e :: _ => Except.error e

/-- Does a character list contain the two-character subsequence
backslash-`n` (the escape sequence the file format reserves)? -/
def hasBackslashN : List Char → Bool
  | [] => false
  | [_] => false
  | c1 :: c2 :: rest => (c1 = '\\' && c2 = 'n') || hasBackslashN (c2 :: rest)

/-- A concrete configuration for evaluating the model: three declared
functions, no overrides, everything resolved from defaults. -/
def sampleConfig : Config where
  servicePath := "/proj"
  customDir := none
  functions := [("hello", ⟨none⟩), ("second", ⟨none⟩), ("third", ⟨none⟩)]
  serviceName := "svc"
  optStage := ""
  configStage := ""
  providerStage := ""
  optRegion := ""
  configRegion := ""
  providerRegion := ""

/-- A concrete filesystem: project root and storage directory present. -/
def sampleFs : Fs :=
  [("/proj", FsNode.dir 0o755),
   ("/proj/.serverless-env-local", FsNode.dir 0o700)]

/-- `sampleConfig` with a two-level custom storage directory `a/b`; its
parent `/proj/a` exists on no sample filesystem. -/
def deepDirConfig : Config where
  servicePath := "/proj"
  customDir := some "a/b"
  functions := [("hello", ⟨none⟩), ("second", ⟨none⟩), ("third", ⟨none⟩)]
  serviceName := "svc"
  optStage := ""
  configStage := ""
  providerStage := ""
  optRegion := ""
  configRegion := ""
  providerRegion := ""

/-- A filesystem holding only the project root. -/
def rootFs : Fs := [("/proj", FsNode.dir 0o755)]

/-- `sampleFs` with a stale env file already present for `hello`. -/
def sampleFsPrev : Fs :=
  [("/proj", FsNode.dir 0o755),
   ("/proj/.serverless-env-local", FsNode.dir 0o700),
   ("/proj/.serverless-env-local/.us-east-1_dev_hello",
     FsNode.file "OLD=stale\n")]

/-- `sampleFs` with a captured env file for `hello` holding `FOO=bar` and
a two-line `MULTI` value. -/
def sampleFsWithFile : Fs :=
  [("/proj", FsNode.dir 0o755),
   ("/proj/.serverless-env-local", FsNode.dir 0o700),
   ("/proj/.serverless-env-local/.us-east-1_dev_hello",
     FsNode.file "FOO=bar\nMULTI=line1\\nline2\n")]

/-- A sample remote-fetch oracle: the `second` function's resource is
missing (its stack was never deployed); every other lookup succeeds. -/
def sampleFetch : String → Except String EnvironmentMap := fun s =>
  if s = "svc-dev-second" then Except.error "resource missing"
  else Except.ok [("F", s)]

/-- `sampleConfig` with a per-function file-name override for `hello`. -/
def overrideConfig : Config where
  servicePath := "/proj"
  customDir := none
  functions := [("hello", ⟨some "myfile"⟩)]
  serviceName := "svc"
  optStage := ""
  configStage := ""
  providerStage := ""
  optRegion := ""
  configRegion := ""
  providerRegion := ""

/-! ### Association-list lemmas -/

theorem lookup_eraseKey {α : Type} {q k : String} (h : q ≠ k)
    (l : List (String × α)) :
    List.lookup q (eraseKey k l) = List.lookup q l := by
  induction l with
  | nil => rfl
  | cons e rest ih =>
    obtain ⟨a, b⟩ := e
    by_cases he : a = k
    · subst he
      have hq : (q == a) = false := by simp [h]
      rw [eraseKey, if_pos rfl, ih, List.lookup_cons, hq]
    · rw [eraseKey, if_neg he, List.lookup_cons, List.lookup_cons]
      cases hqa : (q == a) with
      | true => rfl
      | false => exact ih

theorem lookup_setAssoc {α : Type} (l : List (String × α)) (k q : String)
    (v : α) :
    List.lookup q (setAssoc l k v) =
      if q = k then some v else List.lookup q l := by
  unfold setAssoc
  by_cases h : q = k
  · subst h
    rw [List.lookup_cons, if_pos rfl]
    simp
  · have hq : (q == k) = false := by simp [h]
    rw [List.lookup_cons, hq, if_neg h, lookup_eraseKey h l]

/-! ### Escaping and parsing lemmas -/

theorem escapeChars_cons_newline (X : List Char) :
    escapeChars ('\n' :: X) = '\\' :: 'n' :: escapeChars X := rfl

theorem escapeChars_cons_other {c : Char} (h : c ≠ '\n') (X : List Char) :
    escapeChars (c :: X) = c :: escapeChars X := by
  rw [escapeChars, if_neg h]

theorem newline_not_mem_escapeChars (l : List Char) :
    '\n' ∉ escapeChars l := by
  induction l with
  | nil => simp [escapeChars]
  | cons c rest ih =>
    by_cases h : c = '\n'
    · subst h
      rw [escapeChars_cons_newline]
      intro hm
      rcases List.mem_cons.mp hm with h1 | hm
      · exact absurd h1 (by decide)
      · rcases List.mem_cons.mp hm with h1 | hm
        · exact absurd h1 (by decide)
        · exact ih hm
    · rw [escapeChars_cons_other h]
      intro hm
      rcases List.mem_cons.mp hm with h1 | hm
      · exact h h1.symm
      · exact ih hm

theorem hasBackslashN_tail {c : Char} {rest : List Char}
    (h : hasBackslashN (c :: rest) = false) : hasBackslashN rest = false := by
  cases rest with
  | nil => rfl
  | cons d r =>
    rw [hasBackslashN] at h
    exact (Bool.or_eq_false_iff.mp h).2

theorem unescape_escape (l : List Char) (h : hasBackslashN l = false) :
    unescapeChars (escapeChars l) = l := by
  induction l with
  | nil => rfl
  | cons c rest ih =>
    have hrest := hasBackslashN_tail h
    have ihr := ih hrest
    by_cases hc : c = '\n'
    · subst hc
      rw [escapeChars_cons_newline, unescapeChars,
        if_pos ⟨rfl, rfl⟩, ihr]
    · rw [escapeChars_cons_other hc]
      cases rest with
      | nil => rfl
      | cons d r =>
        by_cases hd : d = '\n'
        · subst hd
          rw [escapeChars_cons_newline] at ihr ⊢
          rw [unescapeChars, if_neg (by rintro ⟨h1, h2⟩; exact absurd h2 (by decide)), ihr]
        · rw [escapeChars_cons_other hd] at ihr ⊢
          have hcond : ¬(c = '\\' ∧ d = 'n') := by
            rintro ⟨h1, h2⟩
            subst h1
            subst h2
            rw [hasBackslashN] at h
            simp at h
          rw [unescapeChars, if_neg hcond, ihr]

theorem splitLines_append (l rest : List Char) (h : '\n' ∉ l) :
    splitLines (l ++ '\n' :: rest) = l :: splitLines rest := by
  induction l with
  | nil =>
    show splitLines ('\n' :: rest) = [] :: splitLines rest
    rfl
  | cons c t ih =>
    have hc : c ≠ '\n' := fun e => h (e ▸ List.mem_cons_self c t)
    have ht : '\n' ∉ t := fun m => h (List.mem_cons_of_mem c m)
    show splitLines (c :: (t ++ '\n' :: rest)) = (c :: t) :: splitLines rest
    rw [splitLines, if_neg hc, ih ht]

theorem splitAtEq_append (k tail : List Char) (h : '=' ∉ k) :
    splitAtEq (k ++ '=' :: tail) = some (k, tail) := by
  induction k with
  | nil =>
    show splitAtEq ('=' :: tail) = some ([], tail)
    rfl
  | cons c t ih =>
    have hc : c ≠ '=' := fun e => h (e ▸ List.mem_cons_self c t)
    have ht : '=' ∉ t := fun m => h (List.mem_cons_of_mem c m)
    show splitAtEq (c :: (t ++ '=' :: tail)) = some (c :: t, tail)
    rw [splitAtEq, if_neg hc, ih ht]

theorem serializeEnv_foldl (env : EnvironmentMap) (acc : String) :
    env.foldl (fun properties kv =>
        properties ++ kv.1 ++ "=" ++ escapeValue kv.2 ++ "\n") acc
      = acc ++ serializeEnvR env := by
  induction env generalizing acc with
  | nil => simp [serializeEnvR]
  | cons kv rest ih =>
    rw [List.foldl_cons, ih, serializeEnvR]
    simp [String.append_assoc]

theorem serializeEnv_eq (env : EnvironmentMap) :
    serializeEnv env = serializeEnvR env := by
  have := serializeEnv_foldl env ""
  simpa [serializeEnv] using this

theorem parseProperties_serializeEnvR (env : EnvironmentMap)
    (hk : ∀ kv ∈ env, '=' ∉ kv.1.data ∧ '\n' ∉ kv.1.data)
    (hv : ∀ kv ∈ env, hasBackslashN kv.2.data = false) :
    parseProperties (serializeEnvR env) = env := by
  induction env with
  | nil => rfl
  | cons kv rest ih =>
    obtain ⟨k, v⟩ := kv
    have hkk := hk (k, v) (List.mem_cons_self _ _)
    have hvv := hv (k, v) (List.mem_cons_self _ _)
    have hdata : (serializeEnvR ((k, v) :: rest)).data =
        (k.data ++ '=' :: escapeChars v.data) ++
          '\n' :: (serializeEnvR rest).data := by
      show (k ++ "=" ++ escapeValue v ++ "\n" ++ serializeEnvR rest).data = _
      simp [String.data_append, escapeValue]
    have hline : '\n' ∉ k.data ++ '=' :: escapeChars v.data := by
      intro hmem
      rcases List.mem_append.mp hmem with hm | hm
      · exact hkk.2 hm
      · rcases List.mem_cons.mp hm with hm | hm
        · exact absurd hm (by decide)
        · exact newline_not_mem_escapeChars v.data hm
    unfold parseProperties
    rw [hdata, splitLines_append _ _ hline]
    rw [List.filterMap_cons]
    have hrec : parseRecord (k.data ++ '=' :: escapeChars v.data) =
        some (k, v) := by
      unfold parseRecord
      rw [splitAtEq_append _ _ hkk.1]
      show some (String.mk k.data, String.mk (unescapeChars (escapeChars v.data)))
        = some (k, v)
      rw [unescape_escape v.data hvv]
    rw [hrec]
    have := ih (fun kv hm => hk kv (List.mem_cons_of_mem _ hm))
      (fun kv hm => hv kv (List.mem_cons_of_mem _ hm))
    unfold parseProperties at this
    rw [this]

/-- The parser inverts the serializer for well-formed keys and values
containing no literal backslash-`n` sequence. -/
theorem parseProperties_serializeEnv (env : EnvironmentMap)
    (hk : ∀ kv ∈ env, '=' ∉ kv.1.data ∧ '\n' ∉ kv.1.data)
    (hv : ∀ kv ∈ env, hasBackslashN kv.2.data = false) :
    parseProperties (serializeEnv env) = env := by
  rw [serializeEnv_eq]
  exact parseProperties_serializeEnvR env hk hv

/-! ### Path and filesystem lemmas -/

theorem path_ne_extend (dir s : String) : dir ≠ dir ++ "/" ++ s := by
  intro h
  have hl := congrArg String.length h
  rw [String.length_append, String.length_append] at hl
  have hs : ("/" : String).length = 1 := rfl
  omega

theorem fullPath_inj {dir f1 f2 : String}
    (h : dir ++ "/" ++ f1 = dir ++ "/" ++ f2) : f1 = f2 := by
  have hd := congrArg String.data h
  rw [String.data_append, String.data_append, String.data_append,
    String.data_append] at hd
  exact String.ext (List.append_cancel_left hd)

theorem createCFFile_existing_dir (c : Config) (fs : Fs) (fn fname : String)
    (env : EnvironmentMap) (m : Nat)
    (hname : getEnvFileName c fn = Except.ok fname)
    (hdir : List.lookup (getEnvDirectory c) fs = some (FsNode.dir m)) :
    createCFFile c fs fn env =
      (Except.ok (), setAssoc fs (getEnvDirectory c ++ "/" ++ fname)
        (FsNode.file (serializeEnv env))) := by
  have hex : existsSync fs (getEnvDirectory c) = true := by
    rw [existsSync, hdir]; rfl
  have hdirb : isDirectorySync fs (getEnvDirectory c) = true := by
    rw [isDirectorySync, hdir]
  simp [createCFFile, hname, hex, hdirb, writeFile]

theorem createCFFile_fresh_dir (c : Config) (fs : Fs) (fn fname : String)
    (env : EnvironmentMap) (m : Nat)
    (hname : getEnvFileName c fn = Except.ok fname)
    (habs : List.lookup (getEnvDirectory c) fs = none)
    (hparent : List.lookup (parentPath (getEnvDirectory c)) fs
      = some (FsNode.dir m)) :
    createCFFile c fs fn env =
      (Except.ok (),
        setAssoc (setAssoc fs (getEnvDirectory c) (FsNode.dir 0o700))
          (getEnvDirectory c ++ "/" ++ fname)
          (FsNode.file (serializeEnv env))) := by
  have hex : existsSync fs (getEnvDirectory c) = false := by
    rw [existsSync, habs]; rfl
  have hmk : mkdirSync fs (getEnvDirectory c) =
      Except.ok (setAssoc fs (getEnvDirectory c) (FsNode.dir 0o700)) := by
    rw [mkdirSync, habs, hparent]
  have hdirb : isDirectorySync
      (setAssoc fs (getEnvDirectory c) (FsNode.dir 0o700))
      (getEnvDirectory c) = true := by
    rw [isDirectorySync, lookup_setAssoc, if_pos rfl]
  simp [createCFFile, hname, hex, hmk, hdirb, writeFile]

theorem getEnvFileName_ok {c : Config} {fn : String} {cfg : FunctionConfig}
    (h : List.lookup fn c.functions = some cfg) :
    ∃ fname, getEnvFileName c fn = Except.ok fname := by
  obtain ⟨o⟩ := cfg
  cases o with
  | none =>
    refine ⟨defaultEnvFileName (getRegion c) (getStage c) fn, ?_⟩
    unfold getEnvFileName
    rw [h]
  | some s =>
    refine ⟨if s = "" then defaultEnvFileName (getRegion c) (getStage c) fn
      else s, ?_⟩
    unfold getEnvFileName
    rw [h]

theorem lookup_of_mem_keys {α : Type} {n : String} {l : List (String × α)}
    (h : n ∈ l.map Prod.fst) : ∃ v, List.lookup n l = some v := by
  induction l with
  | nil => simp at h
  | cons e rest ih =>
    obtain ⟨a, b⟩ := e
    by_cases he : n = a
    · subst he
      exact ⟨b, by rw [List.lookup_cons]; simp⟩
    · have hq : (n == a) = false := by simp [he]
      rw [List.map_cons, List.mem_cons] at h
      rcases h with h | h

      · exact absurd h he
      · obtain ⟨v, hv⟩ := ih h
        exact ⟨v, by rw [List.lookup_cons, hq]; exact hv⟩

/-- The expected per-pipeline outcome when the storage directory exists:
each function's pipeline fails exactly when its fetch fails. -/
def expectedOutcome (c : Config)
    (fetch : String → Except String EnvironmentMap) (n : String) :
    Except CaptureError Unit :=
  match fetch (remoteId c n) with
  | Except.ok _ => Except.ok ()
  | Except.error e => Except.error (CaptureError.fetchFailed e)

theorem afterDeployAux_spec (c : Config)
    (fetch : String → Except String EnvironmentMap) :
    ∀ (names : List String) (fs : Fs) (m : Nat),
      (∀ n ∈ names, ∃ fname, getEnvFileName c n = Except.ok fname) →
      names.Nodup →
      (∀ a ∈ names, ∀ b ∈ names,
        getEnvFileName c a = getEnvFileName c b → a = b) →
      List.lookup (getEnvDirectory c) fs = some (FsNode.dir m) →
      ((afterDeployAux c fetch names fs).1
          = names.map (expectedOutcome c fetch)) ∧
      (List.lookup (getEnvDirectory c) (afterDeployAux c fetch names fs).2
        = some (FsNode.dir m)) ∧
      (∀ n ∈ names, ∀ env, fetch (remoteId c n) = Except.ok env →
        ∀ fname, getEnvFileName c n = Except.ok fname →
          List.lookup (getEnvDirectory c ++ "/" ++ fname)
              (afterDeployAux c fetch names fs).2
            = some (FsNode.file (serializeEnv env))) ∧
      (∀ p : String,
        (∀ n ∈ names, ∀ fname, getEnvFileName c n = Except.ok fname →
          p ≠ getEnvDirectory c ++ "/" ++ fname) →
        List.lookup p (afterDeployAux c fetch names fs).2
          = List.lookup p fs) := by
  intro names
  induction names with
  | nil =>
    intro fs m _ _ _ hdir
    refine ⟨rfl, hdir, ?_, ?_⟩
    · intro n hn
      exact absurd hn (List.not_mem_nil n)
    · intro p _
      rfl
  | cons n rest ih =>
    intro fs m hsub hnodup hinj hdir
    obtain ⟨fname, hname⟩ := hsub n (List.mem_cons_self n rest)
    have hnmem : n ∉ rest := (List.nodup_cons.mp hnodup).1
    have hnodupr : rest.Nodup := (List.nodup_cons.mp hnodup).2
    have hsubr : ∀ b ∈ rest, ∃ fnb, getEnvFileName c b = Except.ok fnb :=
      fun b hb => hsub b (List.mem_cons_of_mem n hb)
    have hinjr : ∀ a ∈ rest, ∀ b ∈ rest,
        getEnvFileName c a = getEnvFileName c b → a = b :=
      fun a ha b hb => hinj a (List.mem_cons_of_mem n ha)
        b (List.mem_cons_of_mem n hb)
    cases hf : fetch (remoteId c n) with
    | error e =>
      have hstep : afterDeployAux c fetch (n :: rest) fs =
          ((Except.error (CaptureError.fetchFailed e))
              :: (afterDeployAux c fetch rest fs).1,
            (afterDeployAux c fetch rest fs).2) := by
        simp only [afterDeployAux, hf]
      obtain ⟨ih1, ih2, ih3, ih4⟩ := ih fs m hsubr hnodupr hinjr hdir
      rw [hstep]
      refine ⟨?_, ih2, ?_, ?_⟩
      · rw [List.map_cons, ih1]
        have : expectedOutcome c fetch n
            = Except.error (CaptureError.fetchFailed e) := by
          unfold expectedOutcome
          rw [hf]
        rw [this]
      · intro n' hn' env hfet fname' hname'
        rcases List.mem_cons.mp hn' with hn' | hn'
        · subst hn'
          rw [hf] at hfet
          exact absurd hfet (by simp)
        · exact ih3 n' hn' env hfet fname' hname'
      · intro p hp
        exact ih4 p (fun b hb fnb hnb =>
          hp b (List.mem_cons_of_mem n hb) fnb hnb)
    | ok env0 =>
      have hcreate := createCFFile_existing_dir c fs n fname env0 m hname hdir
      have hstep : afterDeployAux c fetch (n :: rest) fs =
          (Except.ok ()
              :: (afterDeployAux c fetch rest
                (setAssoc fs (getEnvDirectory c ++ "/" ++ fname)
                  (FsNode.file (serializeEnv env0)))).1,
            (afterDeployAux c fetch rest
                (setAssoc fs (getEnvDirectory c ++ "/" ++ fname)
                  (FsNode.file (serializeEnv env0)))).2) := by
        simp only [afterDeployAux, hf, hcreate, Except.mapError]
      have hdir1 : List.lookup (getEnvDirectory c)
          (setAssoc fs (getEnvDirectory c ++ "/" ++ fname)
            (FsNode.file (serializeEnv env0)))
          = some (FsNode.dir m) := by
        rw [lookup_setAssoc, if_neg (path_ne_extend _ _)]
        exact hdir
      obtain ⟨ih1, ih2, ih3, ih4⟩ :=
        ih (setAssoc fs (getEnvDirectory c ++ "/" ++ fname)
          (FsNode.file (serializeEnv env0))) m hsubr hnodupr hinjr hdir1
      have hfresh : ∀ b ∈ rest, ∀ fnb, getEnvFileName c b = Except.ok fnb →
          getEnvDirectory c ++ "/" ++ fname
            ≠ getEnvDirectory c ++ "/" ++ fnb := by
        intro b hb fnb hnb heq
        have : fname = fnb := fullPath_inj heq
        subst this
        have hnb' : getEnvFileName c n = getEnvFileName c b := by
          rw [hname, hnb]
        have := hinj n (List.mem_cons_self n rest)
          b (List.mem_cons_of_mem n hb) hnb'
        subst this
        exact hnmem hb
      rw [hstep]
      refine ⟨?_, ih2, ?_, ?_⟩
      · rw [List.map_cons, ih1]
        have : expectedOutcome c fetch n = Except.ok () := by
          unfold expectedOutcome
          rw [hf]
        rw [this]
      · intro n' hn' env hfet fname' hname'
        rcases List.mem_cons.mp hn' with hn' | hn'
        · subst hn'
          rw [hf] at hfet
          have henv : env0 = env := by
            injection hfet
          subst henv
          have hfn : fname = fname' := by
            rw [hname] at hname'
            injection hname'
          subst hfn
          rw [ih4 _ hfresh, lookup_setAssoc, if_pos rfl]
        · exact ih3 n' hn' env hfet fname' hname'
      · intro p hp
        rw [ih4 p (fun b hb fnb hnb =>
          hp b (List.mem_cons_of_mem n hb) fnb hnb)]
        rw [lookup_setAssoc,
          if_neg (hp n (List.mem_cons_self n rest) fname hname)]

theorem promiseAll_ok_iff (rs : List (Except CaptureError Unit)) :
    promiseAll rs = Except.ok () ↔ ∀ r ∈ rs, r = Except.ok () := by
  induction rs with
  | nil => simp [promiseAll]
  | cons r rest ih =>
    cases r with
    | ok u =>
      cases u
      simp [promiseAll, ih]
    | error e =>
      simp [promiseAll]

/-! ### File-name lemmas -/

theorem append_sep_cancel {c : Char} {l1 : List Char} :
    ∀ {l2 t1 t2 : List Char}, c ∉ l1 → c ∉ l2 →
      l1 ++ c :: t1 = l2 ++ c :: t2 → l1 = l2 ∧ t1 = t2 := by
  induction l1 with
  | nil =>
    intro l2 t1 t2 _ h2 h
    cases l2 with
    | nil =>
      rw [List.nil_append, List.nil_append] at h
      injection h with _ ht
      exact ⟨rfl, ht⟩
    | cons b l2 =>
      rw [List.nil_append, List.cons_append] at h
      injection h with he _
      exact absurd (List.mem_cons.mpr (Or.inl he)) h2
  | cons a l1 ih =>
    intro l2 t1 t2 h1 h2 h
    cases l2 with
    | nil =>
      rw [List.cons_append, List.nil_append] at h
      injection h with he _
      exact absurd (List.mem_cons.mpr (Or.inl he.symm)) h1
    | cons b l2 =>
      rw [List.cons_append, List.cons_append] at h
      injection h with he ht
      have h1' : c ∉ l1 := fun hm => h1 (List.mem_cons_of_mem a hm)
      have h2' : c ∉ l2 := fun hm => h2 (List.mem_cons_of_mem b hm)
      obtain ⟨hl, htl⟩ := ih h1' h2' ht
      exact ⟨by rw [he, hl], htl⟩

theorem defaultEnvFileName_data (r s f : String) :
    (defaultEnvFileName r s f).data =
      '.' :: (r.data ++ '_' :: (s.data ++ '_' :: f.data)) := by
  unfold defaultEnvFileName
  have hdot : ("." : String).data = ['.'] := rfl
  have hsep : ("_" : String).data = ['_'] := rfl
  simp [String.data_append, hdot, hsep]

theorem defaultEnvFileName_inj {r1 s1 f1 r2 s2 f2 : String}
    (hr1 : '_' ∉ r1.data) (hs1 : '_' ∉ s1.data)
    (hr2 : '_' ∉ r2.data) (hs2 : '_' ∉ s2.data)
    (h : defaultEnvFileName r1 s1 f1 = defaultEnvFileName r2 s2 f2) :
    r1 = r2 ∧ s1 = s2 ∧ f1 = f2 := by
  have hd := congrArg String.data h
  rw [defaultEnvFileName_data, defaultEnvFileName_data] at hd
  injection hd with _ hd
  obtain ⟨hr, hrest⟩ := append_sep_cancel hr1 hr2 hd
  obtain ⟨hs, hf⟩ := append_sep_cancel hs1 hs2 hrest
  exact ⟨String.ext hr, String.ext hs, String.ext hf⟩

/-! ### Process-environment lemmas -/

theorem lookup_injectVars_not_mem (vars : EnvironmentMap)
    (penv : List (String × String)) (k : String)
    (h : k ∉ vars.map Prod.fst) :
    List.lookup k (injectVars penv vars) = List.lookup k penv := by
  induction vars generalizing penv with
  | nil => rfl
  | cons kv rest ih =>
    have hk : k ≠ kv.1 := by
      intro e
      exact h (by rw [List.map_cons, e]; exact List.mem_cons_self kv.1 _)
    have hr : k ∉ rest.map Prod.fst := by
      intro hm
      exact h (by rw [List.map_cons]; exact List.mem_cons_of_mem kv.1 hm)
    show List.lookup k (injectVars (setAssoc penv kv.1 kv.2) rest)
      = List.lookup k penv
    rw [ih (setAssoc penv kv.1 kv.2) hr, lookup_setAssoc, if_neg hk]

theorem lookup_injectVars_mem (vars : EnvironmentMap)
    (hnodup : (vars.map Prod.fst).Nodup)
    (penv : List (String × String)) (kv : String × String) (hm : kv ∈ vars) :
    List.lookup kv.1 (injectVars penv vars) = some kv.2 := by
  induction vars generalizing penv with
  | nil => exact absurd hm (List.not_mem_nil kv)
  | cons kv0 rest ih =>
    rw [List.map_cons, List.nodup_cons] at hnodup
    rcases List.mem_cons.mp hm with hh | hh
    · subst hh
      show List.lookup kv.1 (injectVars (setAssoc penv kv.1 kv.2) rest)
        = some kv.2
      rw [lookup_injectVars_not_mem rest _ kv.1 hnodup.1,
        lookup_setAssoc, if_pos rfl]
    · exact ih hnodup.2 (setAssoc penv kv0.1 kv0.2) hh

/-! ### Success shape of a write -/

theorem createCFFile_ok_shape (c : Config) (fs : Fs) (fn : String)
    (env : EnvironmentMap)
    (hok : (createCFFile c fs fn env).1 = Except.ok ()) :
    ∃ fname fs1, getEnvFileName c fn = Except.ok fname ∧
      (createCFFile c fs fn env).2 =
        setAssoc fs1 (getEnvDirectory c ++ "/" ++ fname)
          (FsNode.file (serializeEnv env)) := by
  unfold createCFFile at hok ⊢
  cases hname : getEnvFileName c fn with
  | error e =>
    simp only [hname] at hok
    exact absurd hok (by simp)
  | ok fname =>
    simp only [hname] at hok ⊢
    cases hstep : (if existsSync fs (getEnvDirectory c) then Except.ok fs
        else mkdirSync fs (getEnvDirectory c)) with
    | error e =>
      simp only [hstep] at hok
      exact absurd hok (by simp)
    | ok fs1 =>
      simp only [hstep] at hok ⊢
      cases hdir : isDirectorySync fs1 (getEnvDirectory c) with
      | false =>
        simp only [hdir] at hok
        exact absurd hok (by simp)
      | true =>
        refine ⟨fname, fs1, rfl, ?_⟩
        simp only [hdir, writeFile]
        simp

/-! ### Claim C1 -/

/-- **C1, counterexample.**  The round-trip claim fails for a value that
already contains the two-character sequence backslash-`n`: `write`
(src/index.js:114-115) escapes only literal newlines, so the value `\n`
(backslash, `n`) is written verbatim, and `read` unescapes it to a literal
newline.  Writing `{K: "\n"}` and reading it back yields `{K: "<newline>"}`,
not the map that was written. -/
theorem C1_counterexample :
    (createCFFile sampleConfig sampleFs "hello" [("K", "\\n")]).1
      = Except.ok () ∧
    getCFFileVars sampleConfig
        (createCFFile sampleConfig sampleFs "hello" [("K", "\\n")]).2 "hello"
      = Except.ok [("K", "\n")] ∧
    getCFFileVars sampleConfig
        (createCFFile sampleConfig sampleFs "hello" [("K", "\\n")]).2 "hello"
      ≠ Except.ok [("K", "\\n")] := by
  refine ⟨by decide, by decide, by decide⟩

/-- **C1 (amended).**  For every address and every EnvironmentMap `env`
whose keys are non-empty strings containing no `=` and no newline, and
whose values contain no occurrence of the two-character sequence
backslash-`n`, a successful `write(address, env)` followed immediately by
`read(address)` yields a map equal to `env`; values containing literal
newlines round-trip through the backslash-`n` escaping.  (The claim as
stated — arbitrary values, backslash-`n` the only escaping needed — is
refuted by `C1_counterexample`.) -/
theorem C1_write_read_roundtrip (c : Config) (fs : Fs) (fn : String)
    (env : EnvironmentMap)
    (hk : ∀ kv ∈ env, kv.1 ≠ "" ∧ '=' ∉ kv.1.data ∧ '\n' ∉ kv.1.data)
    (hv : ∀ kv ∈ env, hasBackslashN kv.2.data = false)
    (hok : (createCFFile c fs fn env).1 = Except.ok ()) :
    getCFFileVars c (createCFFile c fs fn env).2 fn = Except.ok env := by
  obtain ⟨fname, fs1, hname, hshape⟩ := createCFFile_ok_shape c fs fn env hok
  unfold getCFFileVars
  simp only [hname, hshape]
  rw [lookup_setAssoc, if_pos rfl]
  show Except.ok (parseProperties (serializeEnv env)) = Except.ok env
  rw [parseProperties_serializeEnv env
    (fun kv hm => ⟨(hk kv hm).2.1, (hk kv hm).2.2⟩) hv]

/-- Witness for `C1_write_read_roundtrip` at a concrete input with an
embedded-newline value. -/
theorem C1_write_read_roundtrip_witness :
    getCFFileVars sampleConfig
        (createCFFile sampleConfig sampleFs "hello"
          [("FOO", "bar"), ("MULTI", "line1\nline2")]).2 "hello"
      = Except.ok [("FOO", "bar"), ("MULTI", "line1\nline2")] :=
  C1_write_read_roundtrip sampleConfig sampleFs "hello"
    [("FOO", "bar"), ("MULTI", "line1\nline2")]
    (by decide) (by decide) (by decide)

/-! ### Claim C2 -/

/-- **C2.**  After `write(address, env)` completes successfully, the file
at `address.directoryPath/address.fileName` contains exactly the
concatenation, in entry iteration order, of `key=escapedValue` followed by
a newline for each entry (`serializeEnvR`); the conclusion holds for every
prior filesystem state, so any content the file held before the write is
entirely replaced (no merge). -/
theorem C2_write_replaces_file (c : Config) (fs : Fs) (fn fname : String)
    (env : EnvironmentMap)
    (hname : getEnvFileName c fn = Except.ok fname)
    (hok : (createCFFile c fs fn env).1 = Except.ok ()) :
    List.lookup (getEnvDirectory c ++ "/" ++ fname)
        (createCFFile c fs fn env).2
      = some (FsNode.file (serializeEnvR env)) := by
  obtain ⟨fname2, fs1, hname2, hshape⟩ := createCFFile_ok_shape c fs fn env hok
  rw [hname] at hname2
  injection hname2 with h
  subst h
  rw [hshape, lookup_setAssoc, if_pos rfl, serializeEnv_eq]

/-- Witness for `C2_write_replaces_file`, at a filesystem that already
holds stale content at the written path. -/
theorem C2_write_replaces_file_witness :
    List.lookup
        (getEnvDirectory sampleConfig ++ "/" ++ ".us-east-1_dev_hello")
        (createCFFile sampleConfig sampleFsPrev "hello"
          [("FOO", "bar"), ("MULTI", "line1\nline2")]).2
      = some (FsNode.file
          (serializeEnvR [("FOO", "bar"), ("MULTI", "line1\nline2")])) :=
  C2_write_replaces_file sampleConfig sampleFsPrev "hello"
    ".us-east-1_dev_hello" [("FOO", "bar"), ("MULTI", "line1\nline2")]
    (by decide) (by decide)

/-! ### Claim C3 -/

/-- **C3.**  For every address whose file does not exist (no node at the
full path), `read` returns the empty EnvironmentMap and no error
(src/index.js:130-132). -/
theorem C3_read_missing_file (c : Config) (fs : Fs) (fn fname : String)
    (hname : getEnvFileName c fn = Except.ok fname)
    (habs : List.lookup (getEnvDirectory c ++ "/" ++ fname) fs = none) :
    getCFFileVars c fs fn = Except.ok [] := by
  unfold getCFFileVars
  simp only [hname, habs]

/-- Witness for `C3_read_missing_file`: reading an address that was never
written to. -/
theorem C3_read_missing_file_witness :
    getCFFileVars sampleConfig sampleFs "hello" = Except.ok [] :=
  C3_read_missing_file sampleConfig sampleFs "hello" ".us-east-1_dev_hello"
    (by decide) (by decide)

/-! ### Claim C5 -/

/-- **C5.**  When the storage directory path exists but is a plain file,
`write` fails with the `NotADirectoryError`
(`Expected ... to be a directory`, src/index.js:104-106) and the
filesystem is returned unchanged: no file write is performed. -/
theorem C5_write_to_file_path (c : Config) (fs : Fs)
    (fn fname content : String) (env : EnvironmentMap)
    (hname : getEnvFileName c fn = Except.ok fname)
    (hfile : List.lookup (getEnvDirectory c) fs
      = some (FsNode.file content)) :
    createCFFile c fs fn env = (Except.error CfError.notADirectory, fs) := by
  have hex : existsSync fs (getEnvDirectory c) = true := by
    rw [existsSync, hfile]; rfl
  have hdirb : isDirectorySync fs (getEnvDirectory c) = false := by
    rw [isDirectorySync, hfile]
  simp [createCFFile, hname, hex, hdirb]

/-- Witness for `C5_write_to_file_path`. -/
theorem C5_write_to_file_path_witness :
    createCFFile sampleConfig
        [("/proj", FsNode.dir 0o755),
         ("/proj/.serverless-env-local", FsNode.file "oops")]
        "hello" [("A", "b")]
      = (Except.error CfError.notADirectory,
        [("/proj", FsNode.dir 0o755),
         ("/proj/.serverless-env-local", FsNode.file "oops")]) :=
  C5_write_to_file_path sampleConfig
    [("/proj", FsNode.dir 0o755),
     ("/proj/.serverless-env-local", FsNode.file "oops")]
    "hello" ".us-east-1_dev_hello" "oops" [("A", "b")]
    (by decide) (by decide)

/-! ### Claim C6 -/

/-- **C6, counterexample.**  The claim says missing parent directories are
created; but `fs.mkdirSync(path, 0o700)` (src/index.js:101) has no
`recursive` flag, so when the storage directory's parent is missing the
write fails instead of succeeding: with the storage directory resolved to
`/proj/a/b` and only `/proj` existing, the write errors and creates
nothing. -/
theorem C6_counterexample :
    List.lookup (getEnvDirectory deepDirConfig) rootFs = none ∧
    createCFFile deepDirConfig rootFs "hello" [("A", "b")]
      = (Except.error CfError.ioError, rootFs) := by
  refine ⟨by decide, by decide⟩

/-- **C6 (amended).**  For every address whose directoryPath does not yet
exist but whose parent directory does, `write` creates the directory with
owner-only (0o700) permissions before writing the file, and the write
succeeds; missing parent directories are not created (the unamended claim
fails by `C6_counterexample`). -/
theorem C6_mkdir_amended (c : Config) (fs : Fs) (fn fname : String)
    (env : EnvironmentMap) (m : Nat)
    (hname : getEnvFileName c fn = Except.ok fname)
    (habs : List.lookup (getEnvDirectory c) fs = none)
    (hparent : List.lookup (parentPath (getEnvDirectory c)) fs
      = some (FsNode.dir m)) :
    (createCFFile c fs fn env).1 = Except.ok () ∧
    List.lookup (getEnvDirectory c) (createCFFile c fs fn env).2
      = some (FsNode.dir 0o700) ∧
    List.lookup (getEnvDirectory c ++ "/" ++ fname)
        (createCFFile c fs fn env).2
      = some (FsNode.file (serializeEnv env)) := by
  rw [createCFFile_fresh_dir c fs fn fname env m hname habs hparent]
  refine ⟨rfl, ?_, ?_⟩
  · rw [lookup_setAssoc, if_neg (path_ne_extend _ _),
      lookup_setAssoc, if_pos rfl]
  · rw [lookup_setAssoc, if_pos rfl]

/-- Witness for `C6_mkdir_amended`: writing to a never-before-used address
whose parent (the project root) exists. -/
theorem C6_mkdir_amended_witness :
    (createCFFile sampleConfig rootFs "hello" [("A", "b")]).1
      = Except.ok () ∧
    List.lookup (getEnvDirectory sampleConfig)
        (createCFFile sampleConfig rootFs "hello" [("A", "b")]).2
      = some (FsNode.dir 0o700) ∧
    List.lookup (getEnvDirectory sampleConfig ++ "/" ++ ".us-east-1_dev_hello")
        (createCFFile sampleConfig rootFs "hello" [("A", "b")]).2
      = some (FsNode.file (serializeEnv [("A", "b")])) :=
  C6_mkdir_amended sampleConfig rootFs "hello" ".us-east-1_dev_hello"
    [("A", "b")] 0o755 (by decide) (by decide) (by decide)

/-! ### Claim C4 -/

/-- **C4.**  Capture runs one pipeline per declared function, in
declaration order.  When the storage directory exists and distinct
functions resolve to distinct file names: (1) each function's outcome is
exactly its own fetch outcome — one function's fetch failure is re-raised
as that function's failure only; (2) for every function whose fetch
succeeds the write is performed (its file holds the serialized
environment in the final state), regardless of other functions' failures;
(3) the `Promise.all` aggregate succeeds exactly when every per-function
pipeline succeeds, i.e. fails exactly when at least one fails. -/
theorem C4_capture_isolation (c : Config)
    (fetch : String → Except String EnvironmentMap) (fs : Fs) (m : Nat)
    (hdir : List.lookup (getEnvDirectory c) fs = some (FsNode.dir m))
    (hnodup : (c.functions.map Prod.fst).Nodup)
    (hinj : ∀ a ∈ c.functions.map Prod.fst, ∀ b ∈ c.functions.map Prod.fst,
      getEnvFileName c a = getEnvFileName c b → a = b) :
    ((afterDeploy c fetch fs).1
        = (c.functions.map Prod.fst).map (expectedOutcome c fetch)) ∧
    (∀ n ∈ c.functions.map Prod.fst, ∀ env,
      fetch (remoteId c n) = Except.ok env →
      ∀ fname, getEnvFileName c n = Except.ok fname →
        List.lookup (getEnvDirectory c ++ "/" ++ fname)
            (afterDeploy c fetch fs).2
          = some (FsNode.file (serializeEnv env))) ∧
    (promiseAll (afterDeploy c fetch fs).1 = Except.ok () ↔
      ∀ r ∈ (afterDeploy c fetch fs).1, r = Except.ok ()) := by
  have hsub : ∀ n ∈ c.functions.map Prod.fst,
      ∃ fname, getEnvFileName c n = Except.ok fname := by
    intro n hn
    obtain ⟨cfg, hcfg⟩ := lookup_of_mem_keys hn
    exact getEnvFileName_ok hcfg
  obtain ⟨h1, _, h3, _⟩ := afterDeployAux_spec c fetch
    (c.functions.map Prod.fst) fs m hsub hnodup hinj hdir
  exact ⟨h1, h3, promiseAll_ok_iff _⟩

/-- Witness for `C4_capture_isolation`: with three declared functions and
the fetch for `second` failing, the write for `third` still lands. -/
theorem C4_capture_isolation_witness :
    List.lookup (getEnvDirectory sampleConfig ++ "/" ++ ".us-east-1_dev_third")
        (afterDeploy sampleConfig sampleFetch sampleFs).2
      = some (FsNode.file (serializeEnv [("F", "svc-dev-third")])) :=
  (C4_capture_isolation sampleConfig sampleFetch sampleFs 0o700
      (by decide) (by decide) (by decide)).2.1
    "third" (by decide) [("F", "svc-dev-third")] (by decide)
    ".us-east-1_dev_third" (by decide)

/-! ### Claim C7 -/

/-- **C7.**  File-name resolution: with no per-function override the name
is the deterministic default `.<region>_<stage>_<functionName>`
(determinism is immediate, `getEnvFileName` being a function of the
triple); the default is injective over triples whose components avoid the
`_` separator; and a declared (non-empty, i.e. truthy) override is
returned instead. -/
theorem C7_fileName_resolution :
    (∀ (c : Config) (fn : String) (cfg : FunctionConfig),
        List.lookup fn c.functions = some cfg →
        cfg.resourceOutputFile = none →
        getEnvFileName c fn
          = Except.ok (defaultEnvFileName (getRegion c) (getStage c) fn)) ∧
    (∀ r1 s1 f1 r2 s2 f2 : String,
        '_' ∉ r1.data → '_' ∉ s1.data → '_' ∉ f1.data →
        '_' ∉ r2.data → '_' ∉ s2.data → '_' ∉ f2.data →
        defaultEnvFileName r1 s1 f1 = defaultEnvFileName r2 s2 f2 →
        r1 = r2 ∧ s1 = s2 ∧ f1 = f2) ∧
    (∀ (c : Config) (fn : String) (cfg : FunctionConfig) (o : String),
        List.lookup fn c.functions = some cfg →
        cfg.resourceOutputFile = some o → o ≠ "" →
        getEnvFileName c fn = Except.ok o) := by
  refine ⟨?_, ?_, ?_⟩
  · intro c fn cfg hc ho
    obtain ⟨oo⟩ := cfg
    cases oo with
    | none =>
      unfold getEnvFileName
      rw [hc]
    | some s =>
      exact absurd ho (by simp)
  · intro r1 s1 f1 r2 s2 f2 hr1 hs1 _ hr2 hs2 _ h
    exact defaultEnvFileName_inj hr1 hs1 hr2 hs2 h
  · intro c fn cfg o hc ho hne
    obtain ⟨oo⟩ := cfg
    cases oo with
    | none => exact absurd ho (by simp)
    | some s =>
      injection ho with hs
      subst hs
      unfold getEnvFileName
      rw [hc]
      show Except.ok (if s = "" then defaultEnvFileName (getRegion c)
        (getStage c) fn else s) = Except.ok s
      rw [if_neg hne]

/-- Witness for `C7_fileName_resolution`: the default name for `hello`,
injectivity at a concrete triple, and the `myfile` override. -/
theorem C7_fileName_resolution_witness :
    getEnvFileName sampleConfig "hello"
      = Except.ok (defaultEnvFileName (getRegion sampleConfig)
          (getStage sampleConfig) "hello") ∧
    ("us-east-1" = "us-east-1" ∧ "dev" = "dev" ∧ "hello" = "hello") ∧
    getEnvFileName overrideConfig "hello" = Except.ok "myfile" :=
  ⟨C7_fileName_resolution.1 sampleConfig "hello" ⟨none⟩ (by decide) rfl,
    C7_fileName_resolution.2.1 "us-east-1" "dev" "hello" "us-east-1" "dev"
      "hello" (by decide) (by decide) (by decide) (by decide) (by decide)
      (by decide) rfl,
    C7_fileName_resolution.2.2 overrideConfig "hello" ⟨some "myfile"⟩
      "myfile" (by decide) rfl (by decide)⟩

/-! ### Claim C8 -/

/-- **C8.**  `inject` reads the persisted map for the target function's
address and sets every entry into the process environment, overwriting any
existing variable of the same name; a read yielding the empty map makes
the injection a no-op, with no error. -/
theorem C8_inject_sets_env (c : Config) (fs : Fs) (tfn : String)
    (vars : EnvironmentMap) (penv : List (String × String))
    (hread : getCFFileVars c fs tfn = Except.ok vars)
    (hnodup : (vars.map Prod.fst).Nodup) :
    beforeLocalInvoke c fs tfn penv = Except.ok (injectVars penv vars) ∧
    (∀ kv ∈ vars, List.lookup kv.1 (injectVars penv vars) = some kv.2) ∧
    (vars = [] → injectVars penv vars = penv) := by
  have hname : ∃ fname, getEnvFileName c tfn = Except.ok fname := by
    unfold getCFFileVars at hread
    cases hname : getEnvFileName c tfn with
    | error e =>
      simp only [hname] at hread
      exact absurd hread (by simp)
    | ok f => exact ⟨f, rfl⟩
  obtain ⟨fname, hname⟩ := hname
  refine ⟨?_, ?_, ?_⟩
  · unfold beforeLocalInvoke
    simp only [hname, hread]
  · intro kv hm
    exact lookup_injectVars_mem vars hnodup penv kv hm
  · intro h
    subst h
    rfl

/-- Witness for `C8_inject_sets_env`: injecting the captured `hello` map
over a process environment where `FOO` already exists. -/
theorem C8_inject_sets_env_witness :
    beforeLocalInvoke sampleConfig sampleFsWithFile "hello"
        [("FOO", "old"), ("OTHER", "keep")]
      = Except.ok (injectVars [("FOO", "old"), ("OTHER", "keep")]
          [("FOO", "bar"), ("MULTI", "line1\nline2")]) :=
  (C8_inject_sets_env sampleConfig sampleFsWithFile "hello"
    [("FOO", "bar"), ("MULTI", "line1\nline2")]
    [("FOO", "old"), ("OTHER", "keep")] (by decide) (by decide)).1

/-! ### Claim C9 -/

/-- **C9.**  Stage resolution returns the first non-empty value among CLI
option, project-config stage and provider stage, falling back to the
literal `dev`; region resolution follows the same precedence with fallback
`us-east-1`. -/
theorem C9_stage_region_precedence (c : Config) :
    getStage c = (([c.optStage, c.configStage, c.providerStage].filter
        (fun s => s ≠ "")).headD "dev") ∧
    getRegion c = (([c.optRegion, c.configRegion, c.providerRegion].filter
        (fun s => s ≠ "")).headD "us-east-1") := by
  constructor
  · unfold getStage
    by_cases h1 : c.optStage = "" <;> by_cases h2 : c.configStage = "" <;>
      by_cases h3 : c.providerStage = "" <;>
        simp [List.filter_cons, h1, h2, h3]
  · unfold getRegion
    by_cases h1 : c.optRegion = "" <;> by_cases h2 : c.configRegion = "" <;>
      by_cases h3 : c.providerRegion = "" <;>
        simp [List.filter_cons, h1, h2, h3]

/-! ### Claim C10 -/

/-- **C10.**  For a function name that is not a key of the declared
functions, resolving the file name raises the `TypeError` (reading
`.custom` of `undefined`), and therefore both inject
(`beforeLocalInvoke`) and capture's write (`createCFFile`) raise it too —
no fallback to the default name, no silent empty injection. -/
theorem C10_undeclared_function (c : Config) (fs : Fs) (fn : String)
    (penv : List (String × String)) (env : EnvironmentMap)
    (habs : List.lookup fn c.functions = none) :
    getEnvFileName c fn = Except.error CfError.typeError ∧
    beforeLocalInvoke c fs fn penv = Except.error CfError.typeError ∧
    (createCFFile c fs fn env).1 = Except.error CfError.typeError := by
  have h1 : getEnvFileName c fn = Except.error CfError.typeError := by
    unfold getEnvFileName
    rw [habs]
  refine ⟨h1, ?_, ?_⟩
  · unfold beforeLocalInvoke
    simp only [h1]
  · unfold createCFFile
    simp only [h1]

/-- Witness for `C10_undeclared_function` at the undeclared name `nope`. -/
theorem C10_undeclared_function_witness :
    getEnvFileName sampleConfig "nope" = Except.error CfError.typeError ∧
    beforeLocalInvoke sampleConfig sampleFs "nope" []
      = Except.error CfError.typeError ∧
    (createCFFile sampleConfig sampleFs "nope" []).1
      = Except.error CfError.typeError :=
  C10_undeclared_function sampleConfig sampleFs "nope" [] [] (by decide)
